import Mathlib

set_option maxRecDepth 40000

/-!
Verification of the darc_toolbox core: a shallow embedding of the
particle-based Bayesian Adaptive Design engine (src/bad/model.py) and of the
DARC design-space generator and per-trial filter pipeline
(src/darc/designs.py), with theorems settling the specification claims.

Numeric values (rewards, delays, probabilities, log densities) are embedded
as rationals. Library functions of the host language that compute
transcendental quantities (np.log, the scipy normal-fit entropy) are fields
of the model record, since the source treats them as opaque callables; every
other operation is translated directly from the source.
-/

namespace DarcToolbox

/-! ## Model core, from src/bad/model.py

The base class `Model` is generic: nothing is assumed about the design space
(see the comment at the top of model.py), so the trial design type is a type
parameter `D`. A particle population θ is a table with one row per particle
and one column per free parameter: embedded as a list of rows, each row a
list of rational parameter values (column j = parameter j). -/

/-- One recorded trial: a design plus the recorded response `R`
(0 = chose A, 1 = chose B in the intended encoding; the field is an
arbitrary integer because the source validates it at likelihood time). -/
structure Trial (D : Type) where
  design : D
  R : ℤ
deriving DecidableEq

/-- The data a concrete `Model` subclass supplies (src/bad/model.py asks the
concrete class for `prior`, `predictive_y`, and uses numpy and scipy
callables):
* `priorLogpdf`: for each parameter (by column index), the log-density
  function of its prior, embedding `self.prior[key].logpdf`;
* `predictive_y`: probability of choosing option B for one particle row and
  one design, embedding the abstract method `predictive_y` (the source only
  requires it to be vectorised row-wise, so one row at a time is faithful);
* `log`: embeds `np.log` applied to the rational-embedded probabilities;
* `entropyFit`: embeds `scipy.stats.norm.fit` followed by `norm.entropy` on a
  column of samples (an external library call, pure in the source). -/
structure ModelSpec (D : Type) where
  priorLogpdf : List (ℚ → ℚ)
  predictive_y : List ℚ → D → ℚ
  log : ℚ → ℚ
  entropyFit : List ℚ → ℚ

/-- Embeds `Model.log_prior_pdf` (model.py lines 108-119): the source copies
θ, overwrites each parameter column of the copy with
`prior[key].logpdf(θ[key])`, and sums the copy over columns, yielding one
value per particle row: row i maps to the sum over parameters j of
logpdf_j applied to θ[i][j]. -/
def log_prior_pdf {D : Type} (m : ModelSpec D) (θ : List (List ℚ)) : List ℚ :=
  θ.map (fun row => (List.zipWith (fun f x => f x) m.priorLogpdf row).sum)

/-- Embeds the trial loop of `Model.log_likelihood` (model.py lines 96-103)
building the `p_chose_B` matrix one trial column at a time: for response 1
the column is `predictive_y(θ, trial)`, for response 0 it is
`1 - predictive_y(θ, trial)`, and any other response raises
`ValueError("Failing to identify response")` at that trial, embedded as
`Except.error`. Each column has one entry per particle row of θ. -/
def pChoseBCols {D : Type} (m : ModelSpec D) (θ : List (List ℚ)) :
    List (Trial D) → Except String (List (List ℚ))
  | [] => Except.ok []
  | t :: ts =>
    if t.R = 1 then
      (pChoseBCols m θ ts).map
        (fun cols => (θ.map fun row => m.predictive_y row t.design) :: cols)
    else if t.R = 0 then
      (pChoseBCols m θ ts).map
        (fun cols => (θ.map fun row => 1 - m.predictive_y row t.design) :: cols)
    else Except.error "Failing to identify response"

/-- Embeds `Model.log_likelihood` (model.py lines 76-106): build the
`p_chose_B` matrix (particles by trials), then
`ll = np.sum(np.log(p_chose_B), axis=1)`: per particle, the sum over trials
of the log of the corresponding probability, starting from the
`np.zeros((n_particles, n_trials))` initialisation, so an empty trial
history yields the zero vector of length `θ.length`. -/
def log_likelihood {D : Type} (m : ModelSpec D) (θ : List (List ℚ))
    (data : List (Trial D)) : Except String (List ℚ) :=
  (pChoseBCols m θ data).map
    (fun cols =>
      cols.foldl (fun acc col => List.zipWith (fun a b => a + b) acc (col.map m.log))
        (List.replicate θ.length 0))

/-- Embeds `Model.p_log_pdf` (model.py lines 70-74):
`return self.log_likelihood(θ, data) + self.log_prior_pdf(θ)`. Python
evaluates `log_likelihood` first, so an exception there propagates before
`log_prior_pdf` runs; on success numpy adds the two vectors elementwise. -/
def p_log_pdf {D : Type} (m : ModelSpec D) (θ : List (List ℚ))
    (data : List (Trial D)) : Except String (List ℚ) :=
  (log_likelihood m θ data).map
    (fun ll => List.zipWith (fun a b => a + b) ll (log_prior_pdf m θ))

/-- The mutable state of a `Model` instance that the read-only projections
could in principle touch: the particle population `self.θ` (the prior and
the fixed parameters are immutable after construction). -/
structure ModelState where
  θ : List (List ℚ)
deriving DecidableEq

/-- State-passing form of `Model.log_likelihood`: the source writes only the
freshly allocated local matrix `p_chose_B` and other locals, never `self.θ`
or `data`, so the state threads through unchanged (also on the error
path, since the raise happens before any assignment to non-locals). -/
def log_likelihood_run {D : Type} (m : ModelSpec D) (θ : List (List ℚ))
    (data : List (Trial D)) :
    (List (List ℚ) × List (Trial D)) × Except String (List ℚ) :=
  ((θ, data), log_likelihood m θ data)

/-- State-passing form of `Model.log_prior_pdf`: the source starts with
`log_prior = copy.copy(θ)` precisely so that the column assignments hit the
copy and not θ itself (the NOTE at model.py lines 112-113), so the θ
argument comes back unchanged. -/
def log_prior_pdf_run {D : Type} (m : ModelSpec D) (θ : List (List ℚ)) :
    List (List ℚ) × List ℚ :=
  (θ, log_prior_pdf m θ)

/-- Ascending sort of rational samples, as used by the pandas quantile and
median machinery. -/
def pySort (xs : List ℚ) : List ℚ :=
  xs.insertionSort (fun a b => a ≤ b)

/-- Embeds the pandas `Series.quantile` with its default linear
interpolation: with sorted samples s of length n, the q-quantile sits at
fractional position h = (n-1)q, interpolated between the neighbouring
order statistics. -/
def quantile (xs : List ℚ) (q : ℚ) : ℚ :=
  let s := pySort xs
  let n := s.length
  if n = 0 then 0
  else
    let h : ℚ := ((n : ℚ) - 1) * q
    let i : ℕ := (⌊h⌋).toNat
    let lo := s.getD i 0
    let hi := s.getD (i + 1) lo
    lo + (h - (i : ℚ)) * (hi - lo)

/-- Embeds the pandas `median`: the 0.5 quantile (mean of the two middle
order statistics for even sample counts). -/
def median (xs : List ℚ) : ℚ :=
  quantile xs (1 / 2)

/-- Embeds the pandas `mean` of a column of samples. -/
def mean (xs : List ℚ) : ℚ :=
  xs.sum / (xs.length : ℚ)

/-- Column j of the particle table (the samples for parameter j),
embedding `self.θ[param_name]`. -/
def col (θ : List (List ℚ)) (j : ℕ) : List ℚ :=
  θ.map (fun r => r.getD j 0)

/-- Embeds the value computed by `Model.get_θ_point_estimate` (model.py
lines 162-165): `self.θ.median(axis=0)`, the per-column posterior median,
one entry per parameter column. -/
def pointEstimate (θ : List (List ℚ)) : List ℚ :=
  (List.range (θ.headD []).length).map (fun j => median (col θ j))

/-- State-passing form of `Model.get_θ_point_estimate`: a read-only
projection, the source only calls `median` on θ and builds a fresh frame. -/
def get_θ_point_estimate (s : ModelState) : ModelState × List ℚ :=
  (s, pointEstimate s.θ)

/-- State-passing form of `Model.get_θ_entropy` (model.py lines 181-186):
fits a normal to the column of samples for the parameter and returns the
entropy of the fit (delegated to scipy, embedded by the `entropyFit` field);
reads θ, writes nothing. -/
def get_θ_entropy {D : Type} (m : ModelSpec D) (s : ModelState) (j : ℕ) :
    ModelState × ℚ :=
  (s, m.entropyFit (col s.θ j))

/-- The row of summary statistics built by `Model.get_θ_summary_stats`
(model.py lines 167-179). -/
structure SummaryStats where
  entropy : ℚ
  median : ℚ
  mean : ℚ
  lower50 : ℚ
  upper50 : ℚ
  lower95 : ℚ
  upper95 : ℚ
deriving DecidableEq

/-- State-passing form of `Model.get_θ_summary_stats`: entropy (via
`get_θ_entropy`), median, mean and the 0.25/0.75 and 0.025/0.975 quantiles
of the column of samples for parameter j; a read-only projection that
threads the state through the entropy call unchanged. -/
def get_θ_summary_stats {D : Type} (m : ModelSpec D) (s : ModelState) (j : ℕ) :
    ModelState × SummaryStats :=
  let es := get_θ_entropy m s j
  (es.1,
    { entropy := es.2
      median := median (col es.1.θ j)
      mean := mean (col es.1.θ j)
      lower50 := quantile (col es.1.θ j) (1 / 4)
      upper50 := quantile (col es.1.θ j) (3 / 4)
      lower95 := quantile (col es.1.θ j) (1 / 40)
      upper95 := quantile (col es.1.θ j) (1 - 1 / 40) })

/-! ## DARC design space and filter pipeline, from src/darc/designs.py -/

/-- One row of the design table: the six design attribute columns
RA, DA, PA, RB, DB, PB (reward, delay, probability of prospects A and B),
in the column order fixed at designs.py line 187. -/
structure DesignRow where
  RA : ℚ
  DA : ℚ
  PA : ℚ
  RB : ℚ
  DB : ℚ
  PB : ℚ
deriving DecidableEq

/-- Embeds `itertools.product(RA, DA, PA, RB, DB, PB)` assembled into the
design frame `D` (designs.py lines 187-190): the Cartesian product of the
per-dimension candidate value lists, rightmost dimension varying fastest. -/
def allCombinations (RA DA PA RB DB PB : List ℚ) : List DesignRow :=
  RA.flatMap fun ra =>
    DA.flatMap fun da =>
      PA.flatMap fun pa =>
        RB.flatMap fun rb =>
          DB.flatMap fun db =>
            PB.map fun pb =>
              { RA := ra, DA := da, PA := pa, RB := rb, DB := db, PB := pb }

/-- Embeds `itertools.product(RA_over_RB, DA, PA, RB, DB, PB)` followed by
`D["RA"] = D["RB"] * D["RA_over_RB"]` and dropping the ratio column
(designs.py lines 197-204), for the magnitude-effect parameterization. -/
def allCombinationsRatio (RA_over_RB DA PA RB DB PB : List ℚ) : List DesignRow :=
  RA_over_RB.flatMap fun r =>
    DA.flatMap fun da =>
      PA.flatMap fun pa =>
        RB.flatMap fun rb =>
          DB.flatMap fun db =>
            PB.map fun pb =>
              { RA := rb * r, DA := da, PA := pa, RB := rb, DB := db, PB := pb }

/-- Embeds the two structural feasibility drops applied to the generated
table (designs.py lines 212-218): first
`D.drop(D[D.DA > D.DB].index)` (keep rows with not DA > DB), then, when
`assume_discounting` holds, `D.drop(D[D.RB < D.RA].index)` (keep rows with
not RB < RA). -/
def applyFeasibilityFilters (D0 : List DesignRow) (assume_discounting : Bool) :
    List DesignRow :=
  let D1 := D0.filter (fun d => !(decide (d.DB < d.DA)))
  if assume_discounting then D1.filter (fun d => !(decide (d.RB < d.RA))) else D1

/-- Embeds `DARCDesignGenerator.generate_all_possible_designs` (designs.py
lines 164-228) on the absolute-reward branch (`RA_over_RB` empty): the full
Cartesian product of (RA, DA, PA, RB, DB, PB) with the two feasibility
drops. -/
def generate_all_possible_designs (RA DA PA RB DB PB : List ℚ)
    (assume_discounting : Bool) : List DesignRow :=
  applyFeasibilityFilters (allCombinations RA DA PA RB DB PB) assume_discounting

/-- Embeds the Python expression `sequence is False` for a list-valued
variable: the identity test of a list object against the singleton `False`
is always false, whatever the list. This is how the asserts in
`_input_type_validation` (designs.py lines 94-98) actually parse:
`not RA_over_RB is False` is `not (RA_over_RB is False)`. -/
def pyIsFalse (_l : List ℚ) : Bool :=
  false

/-- Embeds `DARCDesignGenerator._input_type_validation` (designs.py lines
82-98) restricted to list inputs (the isinstance asserts hold by typing
here): returns whether the two response asserts pass, namely
`assert not (RA_over_RB is False)` when RA is empty and
`assert not (RA is False)` when RA_over_RB is empty. -/
def input_type_validation (RA RA_over_RB : List ℚ) : Bool :=
  (if RA.isEmpty then !(pyIsFalse RA_over_RB) else true) &&
    (if RA_over_RB.isEmpty then !(pyIsFalse RA) else true)

/-- Embeds the full branch structure of `generate_all_possible_designs`
(designs.py lines 182-228): `if not self._RA_over_RB` take the absolute
branch (also when RA is empty, giving an empty product), `elif not
self._RA` take the ratio branch, and otherwise only an error is logged, `D`
is never bound, and the following `D.drop(...)` raises `NameError`,
embedded as `Except.error`. -/
def generate_all_possible_designs_full (RA RA_over_RB DA PA RB DB PB : List ℚ)
    (assume_discounting : Bool) : Except String (List DesignRow) :=
  if RA_over_RB.isEmpty then
    Except.ok (applyFeasibilityFilters (allCombinations RA DA PA RB DB PB)
      assume_discounting)
  else if RA.isEmpty then
    Except.ok (applyFeasibilityFilters (allCombinationsRatio RA_over_RB DA PA RB DB PB)
      assume_discounting)
  else
    Except.error "NameError"

/-- Embeds `remove_trials_already_run` (designs.py lines 231-238):
`pd.concat([design_set, exclude_these]).drop_duplicates(keep=False)` keeps
exactly the rows of the concatenation whose full-row value occurs exactly
once in the concatenation. -/
def remove_trials_already_run (design_set exclude_these : List DesignRow) :
    List DesignRow :=
  let concatenated := design_set ++ exclude_these
  concatenated.filter (fun r => decide (concatenated.count r = 1))

/-- Embeds `choose_one_along_design_dimension` (designs.py lines 277-289):
collect the distinct values of the configured dimension, pick one of them
(`random.choice`, embedded by the oracle `pick` supplied with the source of
randomness), and keep only the rows carrying that value. -/
def choose_one_along_design_dimension (allowable : List DesignRow)
    (dim : DesignRow → ℚ) (pick : List ℚ → ℚ) : List DesignRow :=
  let uniqueValues := (allowable.map dim).dedup
  let chosen := pick uniqueValues
  allowable.filter (fun r => decide (dim r = chosen))

/-- Embeds `remove_highly_predictable_designs` (designs.py lines 241-274).
`predictProb` is `model.predictive_y` evaluated at the point estimate, one
probability per row. The source tags each row with `p_chose_B` and the
boolean `highly_predictable` (p below 0.01 or above 0.99), then computes
`n_not_predictable = allowable_designs.size - sum(highly_predictable)`.
Note `.size` is the CELL count of the frame, rows times columns, and at
that point the frame has the 6 design columns plus the 2 added ones, hence
the factor 8. If that quantity exceeds 10 the highly predictable rows are
dropped; otherwise all rows are ranked by `badness = |0.5 - p_chose_B|`
ascending and the first 10 kept. -/
def remove_highly_predictable_designs (allowable : List DesignRow)
    (predictProb : DesignRow → ℚ) : List DesignRow :=
  let threshold : ℚ := 1 / 100
  let tagged := allowable.map (fun d => (d, predictProb d))
  let nHighlyPredictable :=
    (tagged.filter (fun t => decide (t.2 < threshold) || decide (t.2 > 1 - threshold))).length
  let nNotPredictable : ℤ := (allowable.length : ℤ) * 8 - (nHighlyPredictable : ℤ)
  if 10 < nNotPredictable then
    (((tagged.filter (fun t => !(decide (t.2 < threshold)))).filter
        (fun t => !(decide (t.2 > 1 - threshold)))).map (fun t => t.1))
  else
    ((((tagged.map (fun t => (t.1, |(1 : ℚ) / 2 - t.2|))).insertionSort
        (fun a b => a.2 ≤ b.2)).take 10).map (fun t => t.1))

/-- Embeds `DARCDesignGenerator.refine_design_space` (designs.py lines
133-161). `trial` and the design columns of the accumulated data frame
(`history`) come from the `DesignGeneratorABC` base (bad/designs.py, not in
src); per the spec the trial index is the length of the trial history. The
stages, in source order: when NO_REPEATS is set and `self.trial > 1`,
remove already-run designs; when a random choice dimension is configured,
hold one randomly picked value of it fixed; finally remove highly
predictable designs. -/
def refine_design_space (all_possible : List DesignRow) (NO_REPEATS : Bool)
    (trial : ℕ) (history : List DesignRow) (dimOpt : Option (DesignRow → ℚ))
    (pick : List ℚ → ℚ) (predictProb : DesignRow → ℚ) : List DesignRow :=
  let allowable := all_possible
  let allowable :=
    if NO_REPEATS && decide (1 < trial) then
      remove_trials_already_run allowable history
    else allowable
  let allowable :=
    match dimOpt with
    | some dim => choose_one_along_design_dimension allowable dim pick
    | none => allowable
  remove_highly_predictable_designs allowable predictProb

/-- Modelled from the spec: `design_optimisation` lives in
bad/optimisation.py, which is not among the provided sources. Per spec
section 4.5 the optimizer scores each allowable design by expected utility
under the current particle population and returns the maximizer, or a
terminal no-design signal when the allowable set is empty. The utility
criterion is abstract here (`u`). -/
def design_optimisation (allowable : List DesignRow) (u : DesignRow → ℚ) :
    Option DesignRow :=
  List.argmax u allowable

/-- Embeds `DARCDesignGenerator.get_next_design` (designs.py lines 118-131):
`if self.trial > self.max_trials - 1: return None` (Python integers, so the
comparison is taken in ℤ), else refine the design space and hand it to the
optimizer (`design_optimisation`, modelled from the spec), returning its
chosen design. -/
def get_next_design (trial max_trials : ℕ) (all_possible : List DesignRow)
    (NO_REPEATS : Bool) (history : List DesignRow)
    (dimOpt : Option (DesignRow → ℚ)) (pick : List ℚ → ℚ)
    (predictProb : DesignRow → ℚ) (u : DesignRow → ℚ) : Option DesignRow :=
  if (max_trials : ℤ) - 1 < (trial : ℤ) then none
  else
    design_optimisation
      (refine_design_space all_possible NO_REPEATS trial history dimOpt pick predictProb)
      u

/-- A sample design row used in concrete evaluations: reward `n` now versus
reward 100 after a 7-day delay, both certain. -/
def row (n : ℚ) : DesignRow :=
  { RA := n, DA := 0, PA := 1, RB := 100, DB := 7, PB := 1 }

/-! ## Theorems -/

/-- Whatever branch `remove_highly_predictable_designs` takes, it only ever
returns rows of its input table. -/
theorem mem_of_mem_remove_highly (al : List DesignRow) (p : DesignRow → ℚ)
    {x : DesignRow} (hx : x ∈ remove_highly_predictable_designs al p) : x ∈ al := by
  simp only [remove_highly_predictable_designs] at hx
  split at hx
  · obtain ⟨t, htt, rfl⟩ := List.mem_map.mp hx
    have ht : t ∈ al.map (fun d => (d, p d)) :=
      (List.mem_filter.mp (List.mem_filter.mp htt).1).1
    obtain ⟨d, hd, rfl⟩ := List.mem_map.mp ht
    exact hd
  · obtain ⟨t, htt, rfl⟩ := List.mem_map.mp hx
    have ht2 := List.take_subset _ _ htt
    rw [List.mem_insertionSort] at ht2
    obtain ⟨u, hu, rfl⟩ := List.mem_map.mp ht2
    obtain ⟨d, hd, rfl⟩ := List.mem_map.mp hu
    exact hd

/-- A row that occurs both in the design set and among the excluded trials
occurs at least twice in the concatenation, so `drop_duplicates(keep=False)`
removes every copy of it. -/
theorem not_mem_remove_trials {ds ex : List DesignRow} {x : DesignRow}
    (hex : x ∈ ex) (hds : x ∈ ds) : x ∉ remove_trials_already_run ds ex := by
  intro hmem
  have hc : remove_trials_already_run ds ex
      = (ds ++ ex).filter (fun r => decide ((ds ++ ex).count r = 1)) := rfl
  rw [hc, List.mem_filter] at hmem
  have h1 : 0 < ds.count x := List.count_pos_iff.mpr hds
  have h2 : 0 < ex.count x := List.count_pos_iff.mpr hex
  have h3 : (ds ++ ex).count x = ds.count x + ex.count x := List.count_append x ds ex
  have h4 : (ds ++ ex).count x = 1 := of_decide_eq_true hmem.2
  omega

/-- Claim C10: under the documented precondition of
`remove_trials_already_run` (the excluded trials are a subset of a
duplicate-free design set) the function returns exactly the design-set rows
that were not excluded; but a row of `exclude_these` that is absent from
`design_set` occurs exactly once in the concatenation and therefore
survives into the output, so the output is not in general a subset of
`design_set`. -/
theorem remove_trials_already_run_characterization :
    (∀ ds ex : List DesignRow, ds.Nodup → (∀ r ∈ ex, r ∈ ds) →
        remove_trials_already_run ds ex = ds.filter (fun r => decide (r ∉ ex)))
    ∧ ∀ (ds ex : List DesignRow) (x : DesignRow), x ∉ ds → ex.count x = 1 →
        x ∈ remove_trials_already_run ds ex := by
  constructor
  · intro ds ex hnodup hsub
    have hc : remove_trials_already_run ds ex
        = (ds ++ ex).filter (fun r => decide ((ds ++ ex).count r = 1)) := rfl
    rw [hc, List.filter_append]
    have hex : ex.filter (fun r => decide ((ds ++ ex).count r = 1)) = [] := by
      rw [List.filter_eq_nil_iff]
      intro r hr
      have h1 : ds.count r = 1 := List.count_eq_one_of_mem hnodup (hsub r hr)
      have h2 : 0 < ex.count r := List.count_pos_iff.mpr hr
      simp only [List.count_append, decide_eq_true_eq]
      omega
    rw [hex, List.append_nil]
    refine List.filter_congr (fun r hr => ?_)
    have h1 : ds.count r = 1 := List.count_eq_one_of_mem hnodup hr
    rw [decide_eq_decide, List.count_append, h1]
    constructor
    · intro h
      exact List.count_eq_zero.mp (by omega)
    · intro h
      have h0 : ex.count r = 0 := List.count_eq_zero.mpr h
      omega
  · intro ds ex x hnot hcount
    have hmemex : x ∈ ex := List.count_pos_iff.mp (by omega)
    have hds0 : ds.count x = 0 := List.count_eq_zero.mpr hnot
    have hc : remove_trials_already_run ds ex
        = (ds ++ ex).filter (fun r => decide ((ds ++ ex).count r = 1)) := rfl
    rw [hc, List.mem_filter]
    refine ⟨List.mem_append_right _ hmemex, ?_⟩
    simp only [List.count_append, hds0, hcount, decide_eq_true_eq]

/-- Witness for C10 at concrete inputs: removing the already-run `row 5`
from the duplicate-free set `[row 5, row 6]` leaves exactly `[row 6]`, and
a foreign excluded row `row 9` (absent from the design set `[row 5]`)
survives into the output. -/
theorem remove_trials_already_run_characterization_witness :
    remove_trials_already_run [row 5, row 6] [row 5]
        = List.filter (fun r => decide (r ∉ [row 5])) [row 5, row 6]
    ∧ row 9 ∈ remove_trials_already_run [row 5] [row 9] :=
  ⟨remove_trials_already_run_characterization.1 [row 5, row 6] [row 5]
      (of_decide_eq_true (by with_unfolding_all rfl))
      (of_decide_eq_true (by with_unfolding_all rfl)),
    remove_trials_already_run_characterization.2 [row 5] [row 9] (row 9)
      (of_decide_eq_true (by with_unfolding_all rfl))
      (of_decide_eq_true (by with_unfolding_all rfl))⟩

/-- Claim C6 is refuted by the code: the exclusion stage is guarded by
`self.trial > 1`, so on trial index 1 (one recorded trial) it is skipped
and the design administered at trial 0 — here `row 5`, recorded in the
history — remains in the allowable set produced by `refine_design_space`. -/
theorem refine_design_space_repeats_on_trial_one :
    row 5 ∈ refine_design_space [row 5, row 6] true 1 [row 5] none
        (fun l => l.headD 0) (fun _ => 1 / 2)
    ∧ row 5 ∈ [row 5] :=
  ⟨of_decide_eq_true (by with_unfolding_all rfl),
    List.mem_singleton.mpr rfl⟩

/-- Claim C6 amended: with NO_REPEATS enabled, on every trial whose trial
index exceeds 1, and provided every history design occurs in the full
design table (as holds for designs the generator itself emitted), the
allowable set produced by `refine_design_space` contains no design from
the trial history. -/
theorem refine_design_space_no_repeats (all_possible history : List DesignRow)
    (trial : ℕ) (dimOpt : Option (DesignRow → ℚ)) (pick : List ℚ → ℚ)
    (predictProb : DesignRow → ℚ) (htrial : 1 < trial)
    (hhist : ∀ h ∈ history, h ∈ all_possible) :
    ∀ r ∈ refine_design_space all_possible true trial history dimOpt pick predictProb,
      r ∉ history := by
  intro r hr hrhist
  cases dimOpt with
  | none =>
    have h1 : refine_design_space all_possible true trial history none pick predictProb
        = remove_highly_predictable_designs
            (remove_trials_already_run all_possible history) predictProb := by
      simp [refine_design_space, htrial]
    rw [h1] at hr
    exact not_mem_remove_trials hrhist (hhist r hrhist)
      (mem_of_mem_remove_highly _ _ hr)
  | some dim =>
    have h1 : refine_design_space all_possible true trial history (some dim) pick predictProb
        = remove_highly_predictable_designs
            (choose_one_along_design_dimension
              (remove_trials_already_run all_possible history) dim pick) predictProb := by
      simp [refine_design_space, htrial]
    rw [h1] at hr
    have h2 := mem_of_mem_remove_highly _ _ hr
    simp only [choose_one_along_design_dimension] at h2
    exact not_mem_remove_trials hrhist (hhist r hrhist) (List.mem_filter.mp h2).1

/-- Witness for the amended C6 at concrete inputs: at trial index 2 with
history `[row 5]` drawn from the design table `[row 5, row 6]`, the refined
set contains no history design. -/
theorem refine_design_space_no_repeats_witness :
    (1 < 2)
    ∧ (∀ h ∈ [row 5], h ∈ [row 5, row 6])
    ∧ ∀ r ∈ refine_design_space [row 5, row 6] true 2 [row 5] none
          (fun l => l.headD 0) (fun _ => 1 / 2),
        r ∉ [row 5] :=
  ⟨by decide,
    of_decide_eq_true (by with_unfolding_all rfl),
    refine_design_space_no_repeats [row 5, row 6] [row 5] 2 none
      (fun l => l.headD 0) (fun _ => 1 / 2) (by decide)
      (of_decide_eq_true (by with_unfolding_all rfl))⟩

/-- Membership in the Cartesian-product design table: a row occurs in
`allCombinations` exactly when each of its six attributes occurs in the
corresponding candidate value list. -/
theorem mem_allCombinations (RA DA PA RB DB PB : List ℚ) (d : DesignRow) :
    d ∈ allCombinations RA DA PA RB DB PB ↔
      d.RA ∈ RA ∧ d.DA ∈ DA ∧ d.PA ∈ PA ∧ d.RB ∈ RB ∧ d.DB ∈ DB ∧ d.PB ∈ PB := by
  constructor
  · intro h
    simp only [allCombinations, List.mem_flatMap, List.mem_map] at h
    obtain ⟨ra, hra, da, hda, pa, hpa, rb, hrb, db, hdb, pb, hpb, rfl⟩ := h
    exact ⟨hra, hda, hpa, hrb, hdb, hpb⟩
  · rintro ⟨hra, hda, hpa, hrb, hdb, hpb⟩
    simp only [allCombinations, List.mem_flatMap, List.mem_map]
    exact ⟨d.RA, hra, d.DA, hda, d.PA, hpa, d.RB, hrb, d.DB, hdb, d.PB, hpb, rfl⟩

/-- Claim C5: on the absolute-reward parameterization the generated design
table is exactly the Cartesian product of the per-dimension value lists
(RA, DA, PA, RB, DB, PB) with the rows violating DA ≤ DB removed, and, when
`assume_discounting` is enabled, additionally the rows violating RA ≤ RB
removed; as a list equality no other row is removed or added, and
membership is characterized attribute-wise. -/
theorem generate_all_possible_designs_exact (RA DA PA RB DB PB : List ℚ) (b : Bool) :
    generate_all_possible_designs RA DA PA RB DB PB b
      = (allCombinations RA DA PA RB DB PB).filter
          (fun d => (!(decide (d.DB < d.DA))) && (!b || !(decide (d.RB < d.RA))))
    ∧ ∀ d : DesignRow,
        d ∈ generate_all_possible_designs RA DA PA RB DB PB b ↔
          (d.RA ∈ RA ∧ d.DA ∈ DA ∧ d.PA ∈ PA ∧ d.RB ∈ RB ∧ d.DB ∈ DB ∧ d.PB ∈ PB)
            ∧ d.DA ≤ d.DB ∧ (b = true → d.RA ≤ d.RB) := by
  have hmain :
      generate_all_possible_designs RA DA PA RB DB PB b
        = (allCombinations RA DA PA RB DB PB).filter
            (fun d => (!(decide (d.DB < d.DA))) && (!b || !(decide (d.RB < d.RA)))) := by
    cases b with
    | false =>
      simp [generate_all_possible_designs, applyFeasibilityFilters]
    | true =>
      simp only [generate_all_possible_designs, applyFeasibilityFilters, if_true,
        List.filter_filter]
      exact List.filter_congr (fun d _ => by simp [Bool.and_comm])
  refine ⟨hmain, fun d => ?_⟩
  rw [hmain, List.mem_filter, mem_allCombinations]
  constructor
  · rintro ⟨hmem, hcond⟩
    simp only [Bool.and_eq_true, Bool.or_eq_true, Bool.not_eq_true',
      decide_eq_false_iff_not, Bool.not_eq_true] at hcond
    refine ⟨hmem, not_lt.mp hcond.1, fun hb => ?_⟩
    rcases hcond.2 with h | h
    · simp [hb] at h
    · exact not_lt.mp h
  · rintro ⟨hmem, hDA, hRB⟩
    refine ⟨hmem, ?_⟩
    simp only [Bool.and_eq_true, Bool.or_eq_true, Bool.not_eq_true',
      decide_eq_false_iff_not, Bool.not_eq_true]
    refine ⟨not_lt.mpr hDA, ?_⟩
    cases b with
    | false => left; rfl
    | true => right; exact not_lt.mpr (hRB rfl)

/-- Witness for C5 at concrete inputs: the row (RA 5, DA 0, PA 1, RB 100,
DB 7, PB 1) belongs to the table generated from the singleton candidate
lists, since its attributes come from the lists, its DA does not exceed its
DB, and its RA does not exceed its RB. -/
theorem generate_all_possible_designs_exact_witness :
    row 5 ∈ generate_all_possible_designs [5] [0] [1] [100] [7] [1] true :=
  ((generate_all_possible_designs_exact [5] [0] [1] [100] [7] [1] true).2 (row 5)).mpr
    ⟨⟨of_decide_eq_true (by with_unfolding_all rfl),
        of_decide_eq_true (by with_unfolding_all rfl),
        of_decide_eq_true (by with_unfolding_all rfl),
        of_decide_eq_true (by with_unfolding_all rfl),
        of_decide_eq_true (by with_unfolding_all rfl),
        of_decide_eq_true (by with_unfolding_all rfl)⟩,
      of_decide_eq_true (by with_unfolding_all rfl),
      fun _ => of_decide_eq_true (by with_unfolding_all rfl)⟩

/-- Claim C7: the feasibility filters are monotone in `assume_discounting`:
enabling it never increases the number of candidate designs, both for the
generated absolute-reward table and for any intermediate table the
generator builds (covering the ratio parameterization as well). -/
theorem assume_discounting_monotone (RA DA PA RB DB PB : List ℚ) :
    (generate_all_possible_designs RA DA PA RB DB PB true).length
        ≤ (generate_all_possible_designs RA DA PA RB DB PB false).length
    ∧ ∀ D0 : List DesignRow,
        (applyFeasibilityFilters D0 true).length
          ≤ (applyFeasibilityFilters D0 false).length := by
  have h : ∀ D0 : List DesignRow,
      (applyFeasibilityFilters D0 true).length
        ≤ (applyFeasibilityFilters D0 false).length := by
    intro D0
    simp only [applyFeasibilityFilters, if_true]
    exact List.length_filter_le _ _
  exact ⟨h _, h⟩

/-- Claim C9: the read-only projections (point estimate, summary statistics,
entropy) return the model state unchanged, and `log_prior_pdf` returns its
θ argument unchanged (the source protects θ with an explicit copy before
overwriting columns, and the projections only read θ). -/
theorem projections_read_only {D : Type} (m : ModelSpec D) (s : ModelState) (j : ℕ) :
    (get_θ_point_estimate s).1 = s
    ∧ (get_θ_summary_stats m s j).1 = s
    ∧ (get_θ_entropy m s j).1 = s
    ∧ ∀ θ : List (List ℚ), (log_prior_pdf_run m θ).1 = θ :=
  ⟨rfl, rfl, rfl, fun _ => rfl⟩

/-- Claim C3 is refuted by the code: with two candidate designs whose
predicted choice probability at the point estimate is 1/1000 (both highly
predictable), `remove_highly_predictable_designs` computes
`n_not_predictable = size - sum(highly_predictable) = 2*8 - 2 = 14 > 10`
(because `.size` counts dataframe cells, rows times columns, not rows),
takes the drop branch, and returns zero designs, whereas per the claim the
fallback should return the min(10, 2) = 2 candidates closest to 0.5. -/
theorem remove_highly_predictable_starves_optimizer :
    remove_highly_predictable_designs
      [{ RA := 1, DA := 0, PA := 1, RB := 100, DB := 7, PB := 1 },
       { RA := 2, DA := 0, PA := 1, RB := 100, DB := 7, PB := 1 }]
      (fun _ => 1 / 1000) = [] :=
  of_decide_eq_true (by with_unfolding_all rfl)

/-- Claim C4 is refuted by the code: `_input_type_validation` passes (its
asserts test `not (X is False)`, which is vacuously true for list values)
both when RA and RA_over_RB are both empty and when both are non-empty;
with both empty, design generation then succeeds and yields an empty
table, and with both non-empty the generator falls into the branch that
never binds `D` and crashes with `NameError` during generation, not with a
validation error before it. -/
theorem darc_input_validation_gap :
    input_type_validation [] [] = true
    ∧ generate_all_possible_designs_full [] [] [0] [1] [100] [7] [1] true = Except.ok []
    ∧ input_type_validation [10] [1 / 2] = true
    ∧ generate_all_possible_designs_full [10] [1 / 2] [0] [1] [100] [7] [1] true
        = Except.error "NameError" :=
  ⟨rfl, rfl, rfl, rfl⟩

/-- One-step unfolding of the trial loop of the likelihood matrix builder. -/
theorem pChoseBCols_cons {D : Type} (m : ModelSpec D) (θ : List (List ℚ))
    (t : Trial D) (ts : List (Trial D)) :
    pChoseBCols m θ (t :: ts)
      = if t.R = 1 then
          (pChoseBCols m θ ts).map
            (fun cols => (θ.map fun row => m.predictive_y row t.design) :: cols)
        else if t.R = 0 then
          (pChoseBCols m θ ts).map
            (fun cols => (θ.map fun row => 1 - m.predictive_y row t.design) :: cols)
        else Except.error "Failing to identify response" := rfl

/-- Mapping a function over an `Except` value neither introduces nor removes
errors. -/
theorem except_map_error_iff {α β : Type} (f : α → β) (x : Except String α) :
    (∃ e, x.map f = Except.error e) ↔ ∃ e, x = Except.error e := by
  cases x <;> simp [Except.map]

/-- The likelihood matrix builder signals an error exactly when some trial
in the history carries a response other than 0 or 1. -/
theorem pChoseBCols_error_iff {D : Type} (m : ModelSpec D) (θ : List (List ℚ))
    (data : List (Trial D)) :
    (∃ e, pChoseBCols m θ data = Except.error e) ↔
      ∃ t ∈ data, t.R ≠ 0 ∧ t.R ≠ 1 := by
  induction data with
  | nil => simp [pChoseBCols]
  | cons t ts ih =>
    rcases eq_or_ne t.R 1 with h1 | h1
    · rw [pChoseBCols_cons, if_pos h1, except_map_error_iff, ih]
      constructor
      · rintro ⟨u, hu, hR⟩
        exact ⟨u, List.mem_cons_of_mem _ hu, hR⟩
      · rintro ⟨u, hu, hR⟩
        rcases List.mem_cons.mp hu with rfl | hu
        · exact absurd h1 hR.2
        · exact ⟨u, hu, hR⟩
    · rcases eq_or_ne t.R 0 with h0 | h0
      · rw [pChoseBCols_cons, if_neg h1, if_pos h0, except_map_error_iff, ih]
        constructor
        · rintro ⟨u, hu, hR⟩
          exact ⟨u, List.mem_cons_of_mem _ hu, hR⟩
        · rintro ⟨u, hu, hR⟩
          rcases List.mem_cons.mp hu with rfl | hu
          · exact absurd h0 hR.1
          · exact ⟨u, hu, hR⟩
      · rw [pChoseBCols_cons, if_neg h1, if_neg h0]
        constructor
        · intro _
          exact ⟨t, List.mem_cons_self t ts, h0, h1⟩
        · intro _
          exact ⟨"Failing to identify response", rfl⟩

/-- Claim C2: `log_likelihood` raises the response-label error exactly when
some recorded response differs from both 0 and 1 (so it never raises when
every response is 0 or 1), and the particle population and the trial
history come out of the call unchanged (the source writes only the fresh
local matrix, also on the raising path). -/
theorem log_likelihood_response_label_errors {D : Type} (m : ModelSpec D)
    (θ : List (List ℚ)) (data : List (Trial D)) :
    ((∃ e, log_likelihood m θ data = Except.error e) ↔
        ∃ t ∈ data, t.R ≠ 0 ∧ t.R ≠ 1)
    ∧ (log_likelihood_run m θ data).1 = (θ, data) := by
  constructor
  · unfold log_likelihood
    rw [except_map_error_iff]
    exact pChoseBCols_error_iff m θ data
  · rfl

/-- Witness for C2 at concrete inputs: a recorded response of 2 makes
`log_likelihood` raise the response-label error while the particle
population and trial history are unchanged. -/
theorem log_likelihood_response_label_errors_witness :
    log_likelihood
        (D := ℚ)
        { priorLogpdf := [fun x => x], predictive_y := fun _ _ => 1 / 2,
          log := fun x => x, entropyFit := fun _ => 0 }
        [[1], [2]] [{ design := 0, R := 2 }]
      = Except.error "Failing to identify response"
    ∧ (log_likelihood_run
        (D := ℚ)
        { priorLogpdf := [fun x => x], predictive_y := fun _ _ => 1 / 2,
          log := fun x => x, entropyFit := fun _ => 0 }
        [[1], [2]] [{ design := 0, R := 2 }]).1
      = ([[1], [2]], [{ design := 0, R := 2 }]) :=
  ⟨by with_unfolding_all rfl,
    (log_likelihood_response_label_errors
        (D := ℚ)
        { priorLogpdf := [fun x => x], predictive_y := fun _ _ => 1 / 2,
          log := fun x => x, entropyFit := fun _ => 0 }
        [[1], [2]] [{ design := 0, R := 2 }]).2⟩

/-- Every column of a successfully built likelihood matrix has one entry
per particle row of θ. -/
theorem pChoseBCols_ok_lengths {D : Type} (m : ModelSpec D) (θ : List (List ℚ)) :
    ∀ (data : List (Trial D)) (cols : List (List ℚ)),
      pChoseBCols m θ data = Except.ok cols → ∀ c ∈ cols, c.length = θ.length := by
  intro data
  induction data with
  | nil =>
    intro cols h c hc
    obtain rfl : ([] : List (List ℚ)) = cols := by
      simpa [pChoseBCols] using h
    simp at hc
  | cons t ts ih =>
    intro cols h c hc
    rw [pChoseBCols_cons] at h
    rcases eq_or_ne t.R 1 with h1 | h1
    · rw [if_pos h1] at h
      cases hrec : pChoseBCols m θ ts with
      | error e => rw [hrec] at h; exact absurd h (by simp [Except.map])
      | ok cols0 =>
        rw [hrec] at h
        simp only [Except.map, Except.ok.injEq] at h
        subst h
        rcases List.mem_cons.mp hc with rfl | hc
        · simp
        · exact ih cols0 hrec c hc
    · rcases eq_or_ne t.R 0 with h0 | h0
      · rw [if_neg h1, if_pos h0] at h
        cases hrec : pChoseBCols m θ ts with
        | error e => rw [hrec] at h; exact absurd h (by simp [Except.map])
        | ok cols0 =>
          rw [hrec] at h
          simp only [Except.map, Except.ok.injEq] at h
          subst h
          rcases List.mem_cons.mp hc with rfl | hc
          · simp
          · exact ih cols0 hrec c hc
      · rw [if_neg h1, if_neg h0] at h
        exact absurd h (by simp)

/-- Summing the per-trial log columns into an accumulator of the particle
count keeps the particle count. -/
theorem foldl_zipWith_length (f : ℚ → ℚ) (L : ℕ) :
    ∀ (cols : List (List ℚ)) (acc : List ℚ), acc.length = L →
      (∀ c ∈ cols, c.length = L) →
      (cols.foldl (fun acc col => List.zipWith (fun a b => a + b) acc (col.map f))
          acc).length = L := by
  intro cols
  induction cols with
  | nil => intro acc hacc _; simpa using hacc
  | cons c cs ih =>
    intro acc hacc hcols
    simp only [List.foldl_cons]
    refine ih _ ?_ (fun c hc => hcols c (List.mem_cons_of_mem _ hc))
    rw [List.length_zipWith, List.length_map, hacc,
      hcols c (List.mem_cons_self c cs), min_self]

/-- Claim C1: the unnormalized log posterior decomposes additively: whenever
`log_likelihood` succeeds, `p_log_pdf` equals the elementwise sum of the
log likelihood and the log prior, both vectors having one entry per
particle row of θ; and for the empty trial history the log likelihood is
the zero vector of the particle count. -/
theorem p_log_pdf_additive_decomposition {D : Type} (m : ModelSpec D)
    (θ : List (List ℚ)) :
    log_likelihood m θ [] = Except.ok (List.replicate θ.length 0)
    ∧ (log_prior_pdf m θ).length = θ.length
    ∧ ∀ (data : List (Trial D)) (ll : List ℚ),
        log_likelihood m θ data = Except.ok ll →
          ll.length = θ.length
          ∧ p_log_pdf m θ data
              = Except.ok (List.zipWith (fun a b => a + b) ll (log_prior_pdf m θ)) := by
  refine ⟨rfl, by simp [log_prior_pdf], ?_⟩
  intro data ll hok
  constructor
  · unfold log_likelihood at hok
    cases hcols : pChoseBCols m θ data with
    | error e =>
      rw [hcols] at hok
      exact absurd hok (by simp [Except.map])
    | ok cols =>
      rw [hcols] at hok
      simp only [Except.map, Except.ok.injEq] at hok
      rw [← hok]
      exact foldl_zipWith_length m.log θ.length cols _ (List.length_replicate _ _)
        (pChoseBCols_ok_lengths m θ data cols hcols)
  · unfold p_log_pdf
    rw [hok]
    rfl

/-- Witness for C1 at a concrete model over a rational design type (one
parameter with identity prior log density, constant predictive probability
1/2, identity log): the likelihood of one chose-B trial is [1/2, 1/2] for
the two particles, the prior vector is [1, 2], and the posterior is their
elementwise sum [3/2, 5/2]. -/
theorem p_log_pdf_additive_decomposition_witness :
    log_likelihood
        (D := ℚ)
        { priorLogpdf := [fun x => x], predictive_y := fun _ _ => 1 / 2,
          log := fun x => x, entropyFit := fun _ => 0 }
        [[1], [2]] [{ design := 0, R := 1 }] = Except.ok [1 / 2, 1 / 2]
    ∧ ([(1 : ℚ) / 2, 1 / 2].length = 2)
    ∧ p_log_pdf
        (D := ℚ)
        { priorLogpdf := [fun x => x], predictive_y := fun _ _ => 1 / 2,
          log := fun x => x, entropyFit := fun _ => 0 }
        [[1], [2]] [{ design := 0, R := 1 }]
        = Except.ok (List.zipWith (fun a b => a + b) [1 / 2, 1 / 2]
            (log_prior_pdf
              (D := ℚ)
              { priorLogpdf := [fun x => x], predictive_y := fun _ _ => 1 / 2,
                log := fun x => x, entropyFit := fun _ => 0 }
              [[1], [2]])) := by
  have hok : log_likelihood
      (D := ℚ)
      { priorLogpdf := [fun x => x], predictive_y := fun _ _ => 1 / 2,
        log := fun x => x, entropyFit := fun _ => 0 }
      [[1], [2]] [{ design := 0, R := 1 }] = Except.ok [1 / 2, 1 / 2] := by
    with_unfolding_all rfl
  have h := (p_log_pdf_additive_decomposition
      (D := ℚ)
      { priorLogpdf := [fun x => x], predictive_y := fun _ _ => 1 / 2,
        log := fun x => x, entropyFit := fun _ => 0 }
      [[1], [2]]).2.2 [{ design := 0, R := 1 }] [1 / 2, 1 / 2] hok
  exact ⟨hok, h.1, h.2⟩

/-- Claim C8: once the trial index reaches the configured maximum,
`get_next_design` returns the no-design signal, for every design table,
history and filter configuration alike (the pipeline and optimizer do not
influence the result); below the maximum, any design it returns comes from
the refined allowable set, and a nonempty refined set guarantees a design
is returned. -/
theorem get_next_design_trial_budget (trial max_trials : ℕ)
    (all_possible : List DesignRow) (NO_REPEATS : Bool) (history : List DesignRow)
    (dimOpt : Option (DesignRow → ℚ)) (pick : List ℚ → ℚ)
    (predictProb u : DesignRow → ℚ) :
    (max_trials ≤ trial →
        get_next_design trial max_trials all_possible NO_REPEATS history dimOpt
          pick predictProb u = none)
    ∧ (trial < max_trials →
        (∀ d, get_next_design trial max_trials all_possible NO_REPEATS history dimOpt
              pick predictProb u = some d →
            d ∈ refine_design_space all_possible NO_REPEATS trial history dimOpt
                pick predictProb)
        ∧ (refine_design_space all_possible NO_REPEATS trial history dimOpt
              pick predictProb ≠ [] →
            get_next_design trial max_trials all_possible NO_REPEATS history dimOpt
              pick predictProb u ≠ none)) := by
  constructor
  · intro h
    unfold get_next_design
    rw [if_pos (by omega)]
  · intro h
    have hcond : ¬ ((max_trials : ℤ) - 1 < (trial : ℤ)) := by omega
    constructor
    · intro d hd
      unfold get_next_design at hd
      rw [if_neg hcond] at hd
      exact List.argmax_mem (Option.mem_def.mpr hd)
    · intro hne
      unfold get_next_design
      rw [if_neg hcond]
      simp only [design_optimisation]
      intro hnone
      exact hne (List.argmax_eq_none.mp hnone)

/-- Witness for C8 at concrete inputs: with a trial budget of 3, trial
index 5 yields no design, while at trial index 0 the refined set
`[row 5, row 6]` is nonempty, the optimizer picks `row 5`, and that design
is a member of the refined set. -/
theorem get_next_design_trial_budget_witness :
    get_next_design 5 3 [row 5, row 6] true [] none (fun l => l.headD 0)
        (fun _ => 1 / 2) (fun _ => 0) = none
    ∧ row 5 ∈ refine_design_space [row 5, row 6] true 0 [] none
        (fun l => l.headD 0) (fun _ => 1 / 2)
    ∧ get_next_design 0 3 [row 5, row 6] true [] none (fun l => l.headD 0)
        (fun _ => 1 / 2) (fun _ => 0) ≠ none :=
  ⟨(get_next_design_trial_budget 5 3 [row 5, row 6] true [] none
        (fun l => l.headD 0) (fun _ => 1 / 2) (fun _ => 0)).1 (by decide),
    ((get_next_design_trial_budget 0 3 [row 5, row 6] true [] none
        (fun l => l.headD 0) (fun _ => 1 / 2) (fun _ => 0)).2 (by decide)).1
      (row 5) (of_decide_eq_true (by with_unfolding_all rfl)),
    ((get_next_design_trial_budget 0 3 [row 5, row 6] true [] none
        (fun l => l.headD 0) (fun _ => 1 / 2) (fun _ => 0)).2 (by decide)).2
      (of_decide_eq_true (by with_unfolding_all rfl))⟩

end DarcToolbox
